import Mathlib

/-!
# Verification of the dataCompress byte-to-text pipeline

Shallow embedding of `src/src/App.jsx` (the `FileCompressor` component).

Byte sequences are `List Nat` with every element `< 256`; JS strings are
modelled as lists of their UTF-16 code units (`List Nat` for the base64
payload text, `List Char` for file names).  The two platform collaborators
the component calls are modelled from their platform specifications:

* `btoa` / `atob` — the WHATWG forgiving-base64 encode/decode algorithms
  (Infra standard): `atob` first strips ASCII whitespace, strips one or two
  trailing `=` when the length is a multiple of four, rejects a remaining
  length of 1 mod 4 and any character outside the 64-symbol alphabet, and
  otherwise decodes 6-bit groups, discarding 4 or 2 trailing bits for a
  final group of 2 or 3 characters.
* `CompressionStream("gzip")` / `DecompressionStream("gzip")` — an
  RFC 1952 gzip member around an RFC 1951 deflate stream.  The model
  compressor emits stored (uncompressed) deflate blocks — the valid gzip
  encoding at compression level 0 — with the standard header (FLG = 0),
  CRC32 and ISIZE trailer; the model decompressor checks the magic bytes,
  method and flags, inflates stored blocks, and verifies the CRC32 and
  ISIZE trailer, rejecting anything else (Huffman-coded blocks, which the
  model compressor never produces, are rejected rather than inflated).

Everything else (`uint8ToBase64`, `base64ToUint8`, the two upload handlers,
the download-name derivations and the component state record) is translated
directly from the source.
-/

namespace DataCompress

/-! ## Little-endian byte helpers (RFC 1952 trailer fields) -/

/-- The four little-endian bytes of `n mod 2^32`. -/
def writeLE32 (n : Nat) : List Nat :=
  [n % 256, n / 256 % 256, n / 65536 % 256, n / 16777216 % 256]

/-- Read four little-endian bytes back into a number. -/
def readLE32 (a b c d : Nat) : Nat :=
  a + 256 * b + 65536 * c + 16777216 * d

/-! ## CRC32 (the gzip trailer checksum, reflected polynomial 0xEDB88320) -/

/-- One shift-and-conditionally-xor round of the bitwise CRC32, iterated
`n` times. -/
def crc32Shift : Nat → Nat → Nat
  | 0, c => c
  | n + 1, c => crc32Shift n (if c % 2 = 1 then c / 2 ^^^ 0xEDB88320 else c / 2)

/-- Absorb one input byte into the CRC32 register. -/
def crc32Byte (c b : Nat) : Nat := crc32Shift 8 (c ^^^ b)

/-- CRC32 of a byte sequence (initial register 0xFFFFFFFF, final
complement), as stored in the gzip trailer. -/
def crc32 (l : List Nat) : Nat := (l.foldl crc32Byte 0xFFFFFFFF) ^^^ 0xFFFFFFFF

/-! ## Deflate stored blocks and the gzip member (RFC 1951 / RFC 1952) -/

/-- A final stored deflate block: BFINAL=1/BTYPE=00 byte, LEN and NLEN as
16-bit little-endian fields, then the raw bytes.  Valid whenever
`b.length ≤ 65535`. -/
def storedBlockFinal (b : List Nat) : List Nat :=
  1 :: b.length % 256 :: b.length / 256 % 256 ::
    (65535 - b.length) % 256 :: (65535 - b.length) / 256 % 256 :: b

/-- Deflate a byte sequence as a chain of stored blocks of at most 65535
bytes, the last one marked final.  `fuel` bounds the number of non-final
blocks; callers pass `b.length`, which always suffices. -/
def deflateStoredFuel : Nat → List Nat → List Nat
  | 0, b => storedBlockFinal b
  | fuel + 1, b =>
    if b.length ≤ 65535 then storedBlockFinal b
    else 0 :: 255 :: 255 :: 0 :: 0 ::
      (b.take 65535 ++ deflateStoredFuel fuel (b.drop 65535))

/-- RFC 1952 member header: magic 0x1f 0x8b, CM=8 (deflate), FLG=0,
MTIME=0, XFL=0, OS=255 (unknown). -/
def gzipHeader : List Nat := [31, 139, 8, 0, 0, 0, 0, 0, 0, 255]

/-- Model of the `compress` adapter (`App.jsx` lines 33–37): stream the
blob through `CompressionStream("gzip")` and collect the bytes.  The gzip
member is header, deflate stream (stored blocks), CRC32 and ISIZE. -/
def compress (b : List Nat) : List Nat :=
  gzipHeader ++ deflateStoredFuel b.length b ++
    writeLE32 (crc32 b) ++ writeLE32 b.length

/-- Inflate a chain of stored deflate blocks, returning the payload and
the bytes following the final block.  `fuel` bounds the number of
non-final blocks.  Fails on truncated input, on an NLEN field that is not
the complement of LEN, and on any block type the model compressor does
not emit. -/
def inflateStored (fuel : Nat) (input : List Nat) : Option (List Nat × List Nat) :=
  match input with
  | 1 :: l0 :: l1 :: n0 :: n1 :: rest =>
    if l0 + 256 * l1 + (n0 + 256 * n1) = 65535 ∧ l0 + 256 * l1 ≤ rest.length then
      some (rest.take (l0 + 256 * l1), rest.drop (l0 + 256 * l1))
    else none
  | 0 :: l0 :: l1 :: n0 :: n1 :: rest =>
    match fuel with
    | 0 => none
    | f + 1 =>
      if l0 + 256 * l1 + (n0 + 256 * n1) = 65535 ∧ l0 + 256 * l1 ≤ rest.length then
        match inflateStored f (rest.drop (l0 + 256 * l1)) with
        | some (p, r) => some (rest.take (l0 + 256 * l1) ++ p, r)
        | none => none
      else none
  | _ => none

/-- Error raised by the model `DecompressionStream` adapter (the spec's
`InvalidCompressedStream`). -/
inductive GzErr where
  | invalidCompressedStream
  deriving DecidableEq, Repr

/-- Model of the `decompress` adapter (`App.jsx` lines 39–43): check the
gzip header, inflate the deflate stream, and verify the CRC32/ISIZE
trailer, with nothing after it. -/
def decompress (s : List Nat) : Except GzErr (List Nat) :=
  match s with
  | 31 :: 139 :: 8 :: 0 :: _ :: _ :: _ :: _ :: _ :: _ :: rest =>
    match inflateStored rest.length rest with
    | some (payload, [c0, c1, c2, c3, i0, i1, i2, i3]) =>
      if readLE32 c0 c1 c2 c3 = crc32 payload ∧
          readLE32 i0 i1 i2 i3 = payload.length % 4294967296 then
        Except.ok payload
      else Except.error GzErr.invalidCompressedStream
    | _ => Except.error GzErr.invalidCompressedStream
  | _ => Except.error GzErr.invalidCompressedStream

/-! ## Base64 (the WHATWG `btoa` / `atob` pair) -/

/-- Code of the `i`-th symbol of the standard base64 alphabet
`A–Z a–z 0–9 + /`. -/
def b64char (i : Nat) : Nat :=
  if i < 26 then 65 + i
  else if i < 52 then 97 + (i - 26)
  else if i < 62 then 48 + (i - 52)
  else if i = 62 then 43 else 47

/-- Position of code `c` in the base64 alphabet, `none` for anything
outside it (including the padding character `=`, code 61). -/
def b64index (c : Nat) : Option Nat :=
  if 65 ≤ c ∧ c ≤ 90 then some (c - 65)
  else if 97 ≤ c ∧ c ≤ 122 then some (c - 71)
  else if 48 ≤ c ∧ c ≤ 57 then some (c + 4)
  else if c = 43 then some 62
  else if c = 47 then some 63
  else none

/-- `btoa`: encode a sequence of 8-bit values three at a time, padding a
final group of one or two bytes with `=` (code 61). -/
def encodeB64 : List Nat → List Nat
  | [] => []
  | [a] => [b64char (a / 4), b64char (a % 4 * 16), 61, 61]
  | [a, b] => [b64char (a / 4), b64char (a % 4 * 16 + b / 16), b64char (b % 16 * 4), 61]
  | a :: b :: c :: r =>
    b64char (a / 4) :: b64char (a % 4 * 16 + b / 16) ::
      b64char (b % 16 * 4 + c / 64) :: b64char (c % 64) :: encodeB64 r

/-- `encodeB64` with the padding characters omitted: the residue after
`atob` strips the trailing `=` signs. -/
def encCore : List Nat → List Nat
  | [] => []
  | [a] => [b64char (a / 4), b64char (a % 4 * 16)]
  | [a, b] => [b64char (a / 4), b64char (a % 4 * 16 + b / 16), b64char (b % 16 * 4)]
  | a :: b :: c :: r =>
    b64char (a / 4) :: b64char (a % 4 * 16 + b / 16) ::
      b64char (b % 16 * 4 + c / 64) :: b64char (c % 64) :: encCore r

/-- The 6-bit groups carried by `encCore`. -/
def coreBits : List Nat → List Nat
  | [] => []
  | [a] => [a / 4, a % 4 * 16]
  | [a, b] => [a / 4, a % 4 * 16 + b / 16, b % 16 * 4]
  | a :: b :: c :: r =>
    a / 4 :: (a % 4 * 16 + b / 16) :: (b % 16 * 4 + c / 64) :: c % 64 :: coreBits r

/-- Reassemble bytes from 6-bit groups: four groups give three bytes; a
final group of two or three gives one or two bytes, its 4 or 2 trailing
bits discarded (forgiving-base64 step 7). -/
def decode4 : List Nat → List Nat
  | v1 :: v2 :: v3 :: v4 :: rest =>
    (v1 * 4 + v2 / 16) :: (v2 % 16 * 16 + v3 / 4) :: (v3 % 4 * 64 + v4) :: decode4 rest
  | [v1, v2] => [v1 * 4 + v2 / 16]
  | [v1, v2, v3] => [v1 * 4 + v2 / 16, v2 % 16 * 16 + v3 / 4]
  | _ => []

/-- ASCII whitespace stripped by forgiving-base64 decode (Infra standard):
TAB, LF, FF, CR, SPACE. -/
def isB64Ws (c : Nat) : Bool := c = 9 ∨ c = 10 ∨ c = 12 ∨ c = 13 ∨ c = 32

/-- Remove one or two trailing `=` characters (forgiving-base64 step 2). -/
def stripPad (t : List Nat) : List Nat :=
  if t.getLast? = some 61 then
    if t.dropLast.getLast? = some 61 then t.dropLast.dropLast else t.dropLast
  else t

/-- Error raised by the model `atob` (the spec's `MalformedPayload`). -/
inductive B64Err where
  | malformedPayload
  deriving DecidableEq, Repr

/-- `atob`: the WHATWG forgiving-base64 decode.  Strips ASCII whitespace,
strips up to two trailing `=` when the remaining length is a multiple of
four, rejects a length of 1 mod 4 and any character outside the alphabet,
and decodes the 6-bit groups. -/
def atobForgiving (s : List Nat) : Except B64Err (List Nat) :=
  let t := s.filter (fun c => !isB64Ws c)
  let t2 := if t.length % 4 = 0 then stripPad t else t
  if t2.length % 4 = 1 then Except.error B64Err.malformedPayload
  else
    match t2.mapM b64index with
    | some vs => Except.ok (decode4 vs)
    | none => Except.error B64Err.malformedPayload

/-- The chunked `binary` string construction of `uint8ToBase64`
(`App.jsx` lines 14–18): concatenate `String.fromCharCode` over
successive `chunk`-sized subarrays.  `fuel` bounds the loop trip count;
callers pass the input length, which always suffices. -/
def fromCharCodeChunks (chunk : Nat) : Nat → List Nat → List Nat
  | _, [] => []
  | 0, _ => []
  | fuel + 1, l => l.take chunk ++ fromCharCodeChunks chunk fuel (l.drop chunk)

/-- `uint8ToBase64` (`App.jsx` lines 12–20): build the binary string in
0x8000-byte chunks, then `btoa` it. -/
def uint8ToBase64 (u8 : List Nat) : List Nat :=
  encodeB64 (fromCharCodeChunks 32768 u8.length u8)

/-- Encoding the whole input in one unchunked `String.fromCharCode` call
followed by `btoa` (the reference the chunked encoder is compared to). -/
def uint8ToBase64Whole (u8 : List Nat) : List Nat :=
  encodeB64 u8

/-- `base64ToUint8` (`App.jsx` lines 22–30): `atob`, then copy the code
units of the resulting binary string into a byte array (the copy is the
identity on the decoded code list). -/
def base64ToUint8 (b64 : List Nat) : Except B64Err (List Nat) :=
  atobForgiving b64

/-! ## The component state and the two upload handlers -/

/-- The single error slot of the component.  The code stores a message
string; only which run failed is observable in the model. -/
inductive RunError where
  | compressFailed
  | restoreFailed
  deriving DecidableEq, Repr

/-- A file selected in the compress direction: a name and its bytes. -/
structure RawFile where
  name : List Char
  content : List Nat
  deriving DecidableEq, Repr

/-- A `.txt` file selected in the restore direction: a name and the text
`FileReader.readAsText` yields (the payload's code units). -/
structure TxtFile where
  name : List Char
  text : List Nat
  deriving DecidableEq, Repr

/-- The `useState` slots of `FileCompressor` (`App.jsx` lines 4–9). -/
structure AppState where
  compressedText : List Nat
  fileName : List Char
  restoredBlob : Option (List Nat)
  error : Option RunError
  isCompressing : Bool
  isDecompressing : Bool
  deriving DecidableEq, Repr

/-- The initial render: `""`, `""`, `null`, `null`, `false`, `false`. -/
def initialState : AppState :=
  { compressedText := []
    fileName := []
    restoredBlob := none
    error := none
    isCompressing := false
    isDecompressing := false }

/-- The synchronous prefix of `handleFileUpload` once a file is present
(`App.jsx` lines 50–52): clear the error, raise the in-flight flag,
record the file name. -/
def compressStart (s : AppState) (f : RawFile) : AppState :=
  { s with error := none, isCompressing := true, fileName := f.name }

/-- The body of `handleFileUpload` for a present file, abstracted over the
outcome of `await compress(file)` so the `catch` branch (lines 58–59) is
part of the model even though the model compressor is total. -/
def handleFileUploadCore (s : AppState) (f : RawFile)
    (outcome : Except RunError (List Nat)) : AppState :=
  let s1 := compressStart s f
  match outcome with
  | Except.ok compressedBytes =>
    { s1 with compressedText := uint8ToBase64 compressedBytes, isCompressing := false }
  | Except.error _ =>
    { s1 with error := some RunError.compressFailed, isCompressing := false }

/-- `handleFileUpload` (`App.jsx` lines 46–63): no-op without a file,
otherwise compress and encode. -/
def handleFileUpload (s : AppState) (ev : Option RawFile) : AppState :=
  match ev with
  | none => s
  | some f => handleFileUploadCore s f (Except.ok (compress f.content))

/-- The synchronous prefix of `handleTxtUpload` once a file is present
(`App.jsx` lines 80–81): clear the error, raise the in-flight flag. -/
def restoreStart (s : AppState) : AppState :=
  { s with error := none, isDecompressing := true }

/-- The `try` body of the reader's `onload` handler (`App.jsx` lines
86–89): decode the text, then decompress the bytes.  The single `catch`
collapses both failure kinds into one error slot value. -/
def restorePipeline (text : List Nat) : Except RunError (List Nat) :=
  match base64ToUint8 text with
  | Except.error _ => Except.error RunError.restoreFailed
  | Except.ok compressedBytes =>
    match decompress compressedBytes with
    | Except.error _ => Except.error RunError.restoreFailed
    | Except.ok bytes => Except.ok bytes

/-- `handleTxtUpload` (`App.jsx` lines 76–98): no-op without a file,
otherwise read the text and run the restore pipeline; on success store
the blob, on failure store the error; either way drop the flag. -/
def handleTxtUpload (s : AppState) (ev : Option TxtFile) : AppState :=
  match ev with
  | none => s
  | some f =>
    let s1 := restoreStart s
    match restorePipeline f.text with
    | Except.ok bytes => { s1 with restoredBlob := some bytes, isDecompressing := false }
    | Except.error _ =>
      { s1 with error := some RunError.restoreFailed, isDecompressing := false }

/-! ## Download names -/

/-- The fixed suffix appended by the compress direction. -/
def compressedSuffix : List Char := (".compressed.txt").data

/-- The fallback name of the restore direction. -/
def restoredDefault : List Char := ("restored_file").data

/-- JS `String.prototype.replace` with a string pattern: replace the first
occurrence of `pat` (here: delete it), leave the string unchanged when
`pat` does not occur. -/
def replaceFirst : List Char → List Char → List Char
  | [], _ => []
  | a :: rest, pat =>
    if pat.isPrefixOf (a :: rest) then (a :: rest).drop pat.length
    else a :: replaceFirst rest pat

/-- `downloadTxt` (`App.jsx` lines 66–73): the offered name is
`fileName + ".compressed.txt"`. -/
def downloadTxtName (s : AppState) : List Char :=
  s.fileName ++ compressedSuffix

/-- `downloadRestored` (`App.jsx` lines 101–108): no download without a
restored blob; otherwise `fileName.replace(".compressed.txt", "")`, with
`"restored_file"` when that is the empty string (JS `||` on a string). -/
def downloadRestoredName (s : AppState) : Option (List Char) :=
  match s.restoredBlob with
  | none => none
  | some _ =>
    let stripped := replaceFirst s.fileName compressedSuffix
    some (if stripped = [] then restoredDefault else stripped)

/-! ## Chunked concatenation is the identity -/

theorem fromCharCodeChunks_eq_id (chunk : Nat) (hc : 1 ≤ chunk) :
    ∀ (fuel : Nat) (l : List Nat), l.length ≤ fuel → fromCharCodeChunks chunk fuel l = l := by
  intro fuel
  induction fuel with
  | zero =>
    intro l hl
    rw [List.eq_nil_of_length_eq_zero (Nat.le_zero.mp hl)]
    rfl
  | succ f ih =>
    intro l hl
    match l with
    | [] => rfl
    | x :: t =>
      show (x :: t).take chunk ++ fromCharCodeChunks chunk f ((x :: t).drop chunk) = x :: t
      rw [ih ((x :: t).drop chunk)
        (by simp only [List.length_drop, List.length_cons] at *; omega)]
      exact List.take_append_drop chunk (x :: t)

/-- C3: chunking transparency.  Encoding chunk-by-chunk — for any chunk
size `c ≥ 1`, and in particular for the 0x8000 chunks of
`uint8ToBase64` — produces the same string as encoding the whole input in
a single unchunked call. -/
theorem chunked_encoding_eq (c : Nat) (hc : 1 ≤ c) (u8 : List Nat) :
    encodeB64 (fromCharCodeChunks c u8.length u8) = uint8ToBase64Whole u8 ∧
    uint8ToBase64 u8 = uint8ToBase64Whole u8 := by
  constructor
  · rw [fromCharCodeChunks_eq_id c hc u8.length u8 (Nat.le_refl _)]
    rfl
  · show encodeB64 (fromCharCodeChunks 32768 u8.length u8) = _
    rw [fromCharCodeChunks_eq_id 32768 (by omega) u8.length u8 (Nat.le_refl _)]
    rfl

theorem chunked_encoding_eq_witness :
    (1 ≤ 5 ∧
      encodeB64 (fromCharCodeChunks 5 ([0, 1, 2, 3, 4, 5, 6] : List Nat).length [0, 1, 2, 3, 4, 5, 6]) =
        uint8ToBase64Whole [0, 1, 2, 3, 4, 5, 6]) ∧
    uint8ToBase64 [0, 1, 2, 3, 4, 5, 6] = uint8ToBase64Whole [0, 1, 2, 3, 4, 5, 6] :=
  ⟨⟨by decide, (chunked_encoding_eq 5 (by decide) [0, 1, 2, 3, 4, 5, 6]).1⟩,
    (chunked_encoding_eq 5 (by decide) [0, 1, 2, 3, 4, 5, 6]).2⟩

/-! ## Base64 alphabet facts -/

theorem b64char_bounds (i : Nat) : 43 ≤ b64char i ∧ b64char i ≤ 122 ∧ b64char i ≠ 61 := by
  unfold b64char
  split_ifs <;> omega

theorem b64index_b64char : ∀ i : Nat, i < 64 → b64index (b64char i) = some i := by
  decide

theorem mem_encodeB64_ge (b : List Nat) : ∀ x ∈ encodeB64 b, 33 ≤ x := by
  induction b using encodeB64.induct with
  | case1 => simp [encodeB64]
  | case2 a =>
    intro x hx
    simp only [encodeB64, List.mem_cons, List.not_mem_nil, or_false] at hx
    rcases hx with h | h | h | h <;> subst h
    · exact le_trans (by omega) (b64char_bounds _).1
    · exact le_trans (by omega) (b64char_bounds _).1
    · omega
    · omega
  | case3 a b =>
    intro x hx
    simp only [encodeB64, List.mem_cons, List.not_mem_nil, or_false] at hx
    rcases hx with h | h | h | h <;> subst h
    · exact le_trans (by omega) (b64char_bounds _).1
    · exact le_trans (by omega) (b64char_bounds _).1
    · exact le_trans (by omega) (b64char_bounds _).1
    · omega
  | case4 a b c r ih =>
    intro x hx
    simp only [encodeB64, List.mem_cons] at hx
    rcases hx with h | h | h | h | h
    · subst h; exact le_trans (by omega) (b64char_bounds _).1
    · subst h; exact le_trans (by omega) (b64char_bounds _).1
    · subst h; exact le_trans (by omega) (b64char_bounds _).1
    · subst h; exact le_trans (by omega) (b64char_bounds _).1
    · exact ih x h

theorem length_encodeB64_mod (b : List Nat) : (encodeB64 b).length % 4 = 0 := by
  induction b using encodeB64.induct <;> (simp [encodeB64] at *; try omega)

theorem encodeB64_eq_nil_iff (b : List Nat) : encodeB64 b = [] ↔ b = [] := by
  match b with
  | [] => simp [encodeB64]
  | [a] => simp [encodeB64]
  | [a, x] => simp [encodeB64]
  | a :: x :: y :: r => simp [encodeB64]

theorem length_encodeB64_ge (b : List Nat) (h : b ≠ []) : 4 ≤ (encodeB64 b).length := by
  have h1 := length_encodeB64_mod b
  have h2 : encodeB64 b ≠ [] := fun e => h ((encodeB64_eq_nil_iff b).mp e)
  have h3 : 0 < (encodeB64 b).length := List.length_pos.mpr h2
  omega

/-! ## Stripping the padding -/

theorem stripPad_append (xs ys : List Nat) (h : 2 ≤ ys.length) :
    stripPad (xs ++ ys) = xs ++ stripPad ys := by
  have hys : ys ≠ [] := by
    intro e
    subst e
    simp at h
  have hyd : ys.dropLast ≠ [] := by
    intro e
    have hl := List.length_dropLast ys
    rw [e] at hl
    simp at hl
    omega
  have e1 : (xs ++ ys).getLast? = ys.getLast? := by
    rw [List.getLast?_append, List.getLast?_eq_getLast ys hys]
    rfl
  have e2 : (xs ++ ys).dropLast = xs ++ ys.dropLast :=
    List.dropLast_append_of_ne_nil xs hys
  have e3 : (xs ++ ys.dropLast).getLast? = ys.dropLast.getLast? := by
    rw [List.getLast?_append, List.getLast?_eq_getLast _ hyd]
    rfl
  have e4 : (xs ++ ys.dropLast).dropLast = xs ++ ys.dropLast.dropLast :=
    List.dropLast_append_of_ne_nil xs hyd
  unfold stripPad
  rw [e1, e2, e3, e4]
  split_ifs <;> rfl

theorem stripPad_two_pads (e1 e2 : Nat) : stripPad [e1, e2, 61, 61] = [e1, e2] := rfl

theorem stripPad_one_pad (e1 e2 e3 : Nat) (h : e3 ≠ 61) :
    stripPad [e1, e2, e3, 61] = [e1, e2, e3] := by
  unfold stripPad
  have h1 : ([e1, e2, e3, 61] : List Nat).getLast? = some 61 := rfl
  have h2 : ([e1, e2, e3, 61] : List Nat).dropLast = [e1, e2, e3] := rfl
  have h3 : ([e1, e2, e3] : List Nat).getLast? = some e3 := rfl
  rw [h1, h2, h3, if_pos rfl, if_neg (by simpa using h)]

theorem stripPad_no_pad (l : List Nat) (h : l.getLast? ≠ some 61) : stripPad l = l := by
  unfold stripPad
  rw [if_neg h]

theorem stripPad_encodeB64 (b : List Nat) : stripPad (encodeB64 b) = encCore b := by
  induction b using encodeB64.induct with
  | case1 => rfl
  | case2 a => exact stripPad_two_pads _ _
  | case3 a x => exact stripPad_one_pad _ _ _ (b64char_bounds _).2.2
  | case4 a x c r ih =>
    match hr : r with
    | [] =>
      refine stripPad_no_pad _ ?_
      intro e
      have : ([b64char (a / 4), b64char (a % 4 * 16 + x / 16),
          b64char (x % 16 * 4 + c / 64), b64char (c % 64)] : List Nat).getLast? =
          some (b64char (c % 64)) := rfl
      rw [show encodeB64 [a, x, c] = [b64char (a / 4), b64char (a % 4 * 16 + x / 16),
        b64char (x % 16 * 4 + c / 64), b64char (c % 64)] from rfl, this] at e
      exact (b64char_bounds (c % 64)).2.2 (by simpa using e)
    | y :: t =>
      have hne : (y :: t : List Nat) ≠ [] := by simp
      have hstep : encodeB64 (a :: x :: c :: y :: t) =
          [b64char (a / 4), b64char (a % 4 * 16 + x / 16),
            b64char (x % 16 * 4 + c / 64), b64char (c % 64)] ++ encodeB64 (y :: t) := rfl
      rw [hstep, stripPad_append _ _ (le_trans (by omega) (length_encodeB64_ge _ hne)), ih]
      rfl

/-! ## Decoding the encoded groups -/

theorem mapM_encCore (b : List Nat) (hb : ∀ x ∈ b, x < 256) :
    (encCore b).mapM b64index = some (coreBits b) := by
  induction b using encCore.induct with
  | case1 => rfl
  | case2 a =>
    have ha : a < 256 := hb a (by simp)
    show List.mapM b64index [b64char (a / 4), b64char (a % 4 * 16)] = some [a / 4, a % 4 * 16]
    simp only [List.mapM_cons, List.mapM_nil,
      b64index_b64char _ (by omega : a / 4 < 64),
      b64index_b64char _ (by omega : a % 4 * 16 < 64)]
    rfl
  | case3 a x =>
    have ha : a < 256 := hb a (by simp)
    have hx : x < 256 := hb x (by simp)
    show List.mapM b64index [b64char (a / 4), b64char (a % 4 * 16 + x / 16),
      b64char (x % 16 * 4)] = some [a / 4, a % 4 * 16 + x / 16, x % 16 * 4]
    simp only [List.mapM_cons, List.mapM_nil,
      b64index_b64char _ (by omega : a / 4 < 64),
      b64index_b64char _ (by omega : a % 4 * 16 + x / 16 < 64),
      b64index_b64char _ (by omega : x % 16 * 4 < 64)]
    rfl
  | case4 a x c r ih =>
    have ha : a < 256 := hb a (by simp)
    have hx : x < 256 := hb x (by simp)
    have hc : c < 256 := hb c (by simp)
    have ihr := ih (fun z hz => hb z (by simp [hz]))
    show List.mapM b64index (b64char (a / 4) :: b64char (a % 4 * 16 + x / 16) ::
      b64char (x % 16 * 4 + c / 64) :: b64char (c % 64) :: encCore r) =
      some (a / 4 :: (a % 4 * 16 + x / 16) :: (x % 16 * 4 + c / 64) :: c % 64 :: coreBits r)
    simp only [List.mapM_cons,
      b64index_b64char _ (by omega : a / 4 < 64),
      b64index_b64char _ (by omega : a % 4 * 16 + x / 16 < 64),
      b64index_b64char _ (by omega : x % 16 * 4 + c / 64 < 64),
      b64index_b64char _ (by omega : c % 64 < 64), ihr]
    rfl

theorem decode4_coreBits (b : List Nat) (hb : ∀ x ∈ b, x < 256) :
    decode4 (coreBits b) = b := by
  induction b using coreBits.induct with
  | case1 => rfl
  | case2 a =>
    show [a / 4 * 4 + a % 4 * 16 / 16] = [a]
    simp only [List.cons.injEq, and_true]
    omega
  | case3 a x =>
    have hx : x < 256 := hb x (by simp)
    show [a / 4 * 4 + (a % 4 * 16 + x / 16) / 16,
      (a % 4 * 16 + x / 16) % 16 * 16 + x % 16 * 4 / 4] = [a, x]
    simp only [List.cons.injEq, and_true]
    constructor <;> omega
  | case4 a x c r ih =>
    have hx : x < 256 := hb x (by simp)
    have hc : c < 256 := hb c (by simp)
    have ihr := ih (fun z hz => hb z (by simp [hz]))
    show (a / 4 * 4 + (a % 4 * 16 + x / 16) / 16) ::
      ((a % 4 * 16 + x / 16) % 16 * 16 + (x % 16 * 4 + c / 64) / 4) ::
      ((x % 16 * 4 + c / 64) % 4 * 64 + c % 64) :: decode4 (coreBits r) = a :: x :: c :: r
    rw [ihr]
    simp only [List.cons.injEq]
    refine ⟨by omega, by omega, by omega, trivial⟩

theorem length_encCore_mod (b : List Nat) : (encCore b).length % 4 ≠ 1 := by
  induction b using encCore.induct <;> (simp [encCore] at *; try omega)

/-! ## The forgiving decode inverts the encoder -/

theorem atob_encodeB64 (b : List Nat) (hb : ∀ x ∈ b, x < 256) :
    atobForgiving (encodeB64 b) = Except.ok b := by
  have hf : (encodeB64 b).filter (fun c => !isB64Ws c) = encodeB64 b :=
    List.filter_eq_self.mpr (fun a ha => by
      have := mem_encodeB64_ge b a ha
      simp only [isB64Ws, Bool.not_eq_true']
      simp only [decide_eq_false_iff_not]
      omega)
  unfold atobForgiving
  simp only [hf]
  rw [if_pos (length_encodeB64_mod b), stripPad_encodeB64 b,
    if_neg (length_encCore_mod b), mapM_encCore b hb]
  show Except.ok (decode4 (coreBits b)) = Except.ok b
  rw [decode4_coreBits b hb]

theorem base64ToUint8_uint8ToBase64 (b : List Nat) (hb : ∀ x ∈ b, x < 256) :
    base64ToUint8 (uint8ToBase64 b) = Except.ok b := by
  show atobForgiving (encodeB64 (fromCharCodeChunks 32768 b.length b)) = _
  rw [fromCharCodeChunks_eq_id 32768 (by omega) b.length b (Nat.le_refl _)]
  exact atob_encodeB64 b hb

/-- C2: codec round trip.  For every byte sequence — empty, with leading
or trailing zeros, with non-printable bytes — decoding the encoding gives
the sequence back: `base64ToUint8 (uint8ToBase64 b) = ok b`. -/
theorem codec_round_trip (b : List Nat) (hb : ∀ x ∈ b, x < 256) :
    base64ToUint8 (uint8ToBase64 b) = Except.ok b :=
  base64ToUint8_uint8ToBase64 b hb

theorem codec_round_trip_witness :
    (∀ x ∈ ([0, 255, 7, 0] : List Nat), x < 256) ∧
    base64ToUint8 (uint8ToBase64 [0, 255, 7, 0]) = Except.ok [0, 255, 7, 0] :=
  ⟨by decide, codec_round_trip [0, 255, 7, 0] (by decide)⟩

/-- C8: the encoder maps the empty byte sequence to the empty string. -/
theorem encode_empty : uint8ToBase64 [] = [] := rfl

/-- C9: a trigger with no file present is a no-op in both directions: the
handlers return the state unchanged — no error, no result change, no
in-flight flag. -/
theorem no_file_noop (s : AppState) :
    handleFileUpload s none = s ∧ handleTxtUpload s none = s :=
  ⟨rfl, rfl⟩

/-! ## The gzip adapter round trip -/

theorem readLE32_writeLE32 (n : Nat) :
    readLE32 (n % 256) (n / 256 % 256) (n / 65536 % 256) (n / 16777216 % 256) = n % 4294967296 := by
  unfold readLE32
  omega

theorem inflateStored_final (F : Nat) (b rest : List Nat) (h : b.length ≤ 65535) :
    inflateStored F (storedBlockFinal b ++ rest) = some (b, rest) := by
  have hlen : b.length % 256 + 256 * (b.length / 256 % 256) = b.length := by omega
  have hnlen : (65535 - b.length) % 256 + 256 * ((65535 - b.length) / 256 % 256) =
      65535 - b.length := by omega
  show inflateStored F (1 :: b.length % 256 :: b.length / 256 % 256 ::
    (65535 - b.length) % 256 :: (65535 - b.length) / 256 % 256 :: (b ++ rest)) = _
  simp only [inflateStored]
  rw [hlen]
  rw [if_pos ⟨by omega, by simp [List.length_append]⟩]
  rw [List.take_left, List.drop_left]


theorem inflateStored_deflate : ∀ (fuel F : Nat) (b rest : List Nat),
    b.length ≤ 65535 * fuel + 65535 → b.length ≤ 65535 * F + 65535 →
    inflateStored F (deflateStoredFuel fuel b ++ rest) = some (b, rest) := by
  intro fuel
  induction fuel with
  | zero =>
    intro F b rest hf hF
    exact inflateStored_final F b rest (by omega)
  | succ f ih =>
    intro F b rest hf hF
    by_cases h : b.length ≤ 65535
    · show inflateStored F ((if b.length ≤ 65535 then storedBlockFinal b else _) ++ rest) = _
      rw [if_pos h]
      exact inflateStored_final F b rest h
    · obtain ⟨F', rfl⟩ : ∃ F', F = F' + 1 := by
        cases F with
        | zero => omega
        | succ k => exact ⟨k, rfl⟩
      have hdef : deflateStoredFuel (f + 1) b =
          0 :: 255 :: 255 :: 0 :: 0 :: (b.take 65535 ++ deflateStoredFuel f (b.drop 65535)) := by
        show (if b.length ≤ 65535 then storedBlockFinal b else _) = _
        rw [if_neg h]
      have htake : (b.take 65535).length = 255 + 256 * 255 := by
        simp [List.length_take]
        omega
      rw [hdef]
      show inflateStored (F' + 1) (0 :: 255 :: 255 :: 0 :: 0 ::
        ((b.take 65535 ++ deflateStoredFuel f (b.drop 65535)) ++ rest)) = _
      rw [List.append_assoc]
      simp only [inflateStored]
      simp only [true_and]
      have hcond : 255 + 256 * 255 ≤
          (b.take 65535 ++ (deflateStoredFuel f (b.drop 65535) ++ rest)).length := by
        rw [List.length_append, htake]
        omega
      rw [if_pos hcond]
      rw [List.drop_left' htake, List.take_left' htake]
      rw [ih F' (b.drop 65535) rest (by rw [List.length_drop]; omega)
        (by rw [List.length_drop]; omega)]
      show some (b.take 65535 ++ b.drop 65535, rest) = some (b, rest)
      rw [List.take_append_drop]


theorem crc32Shift_lt : ∀ (n c : Nat), c < 2 ^ 32 → crc32Shift n c < 2 ^ 32 := by
  intro n
  induction n with
  | zero => intro c hc; exact hc
  | succ m ih =>
    intro c hc
    show crc32Shift m (if c % 2 = 1 then c / 2 ^^^ 0xEDB88320 else c / 2) < 2 ^ 32
    refine ih _ ?_
    split_ifs
    · exact Nat.xor_lt_two_pow (by omega) (by norm_num)
    · omega

theorem crc32Byte_lt (c b : Nat) (hc : c < 2 ^ 32) (hb : b < 256) :
    crc32Byte c b < 2 ^ 32 :=
  crc32Shift_lt 8 _ (Nat.xor_lt_two_pow hc (by omega))

theorem foldl_crc32_lt (l : List Nat) : ∀ c : Nat, c < 2 ^ 32 → (∀ x ∈ l, x < 256) →
    l.foldl crc32Byte c < 2 ^ 32 := by
  induction l with
  | nil => intro c hc _; exact hc
  | cons a t ih =>
    intro c hc hl
    show List.foldl crc32Byte (crc32Byte c a) t < 2 ^ 32
    exact ih _ (crc32Byte_lt c a hc (hl a (by simp))) (fun x hx => hl x (by simp [hx]))

theorem crc32_lt (l : List Nat) (hl : ∀ x ∈ l, x < 256) : crc32 l < 4294967296 := by
  have h := Nat.xor_lt_two_pow (n := 32)
    (foldl_crc32_lt l 0xFFFFFFFF (by norm_num) hl)
    (by norm_num : (0xFFFFFFFF : Nat) < 2 ^ 32)
  unfold crc32
  exact h.trans_eq (by norm_num)

theorem length_deflateStoredFuel_ge : ∀ (fuel : Nat) (b : List Nat),
    b.length ≤ (deflateStoredFuel fuel b).length := by
  intro fuel
  induction fuel with
  | zero =>
    intro b
    show b.length ≤ (storedBlockFinal b).length
    simp [storedBlockFinal]
    omega
  | succ f ih =>
    intro b
    show b.length ≤ (if b.length ≤ 65535 then storedBlockFinal b else _).length
    split_ifs with h
    · simp [storedBlockFinal]
      omega
    · have h1 := ih (b.drop 65535)
      simp only [List.length_cons, List.length_append, List.length_take, List.length_drop] at *
      omega

theorem decompress_compress (b : List Nat) (hb : ∀ x ∈ b, x < 256) :
    decompress (compress b) = Except.ok b := by
  have hge := length_deflateStoredFuel_ge b.length b
  show decompress (gzipHeader ++ deflateStoredFuel b.length b ++
    writeLE32 (crc32 b) ++ writeLE32 b.length) = _
  rw [List.append_assoc, List.append_assoc]
  show decompress (31 :: 139 :: 8 :: 0 :: 0 :: 0 :: 0 :: 0 :: 0 :: 255 ::
    (deflateStoredFuel b.length b ++ (writeLE32 (crc32 b) ++ writeLE32 b.length))) = _
  simp only [decompress]
  rw [inflateStored_deflate b.length _ b (writeLE32 (crc32 b) ++ writeLE32 b.length)
    (by omega)
    (by
      rw [List.length_append]
      omega)]
  show (if readLE32 (crc32 b % 256) (crc32 b / 256 % 256) (crc32 b / 65536 % 256)
      (crc32 b / 16777216 % 256) = crc32 b ∧
      readLE32 (b.length % 256) (b.length / 256 % 256) (b.length / 65536 % 256)
      (b.length / 16777216 % 256) = b.length % 4294967296 then
      Except.ok b else Except.error GzErr.invalidCompressedStream) = Except.ok b
  rw [readLE32_writeLE32, readLE32_writeLE32]
  rw [if_pos ⟨Nat.mod_eq_of_lt (crc32_lt b hb), rfl⟩]


theorem deflate_bytes : ∀ (fuel : Nat) (b : List Nat), (∀ x ∈ b, x < 256) →
    ∀ x ∈ deflateStoredFuel fuel b, x < 256 := by
  intro fuel
  induction fuel with
  | zero =>
    intro b hb x hx
    simp only [deflateStoredFuel, storedBlockFinal, List.mem_cons] at hx
    rcases hx with h | h | h | h | h | h
    · omega
    · omega
    · omega
    · omega
    · omega
    · exact hb x h
  | succ f ih =>
    intro b hb x hx
    show x < 256
    rw [show deflateStoredFuel (f + 1) b = if b.length ≤ 65535 then storedBlockFinal b
      else 0 :: 255 :: 255 :: 0 :: 0 ::
        (b.take 65535 ++ deflateStoredFuel f (b.drop 65535)) from rfl] at hx
    split_ifs at hx with h
    · simp only [storedBlockFinal, List.mem_cons] at hx
      rcases hx with h | h | h | h | h | h
      · omega
      · omega
      · omega
      · omega
      · omega
      · exact hb x h
    · simp only [List.mem_cons, List.mem_append] at hx
      rcases hx with h | h | h | h | h | h | h
      · omega
      · omega
      · omega
      · omega
      · omega
      · exact hb x (List.take_subset 65535 b h)
      · exact ih (b.drop 65535) (fun z hz => hb z (List.drop_subset 65535 b hz)) x h

theorem compress_bytes (b : List Nat) (hb : ∀ x ∈ b, x < 256) :
    ∀ x ∈ compress b, x < 256 := by
  intro x hx
  unfold compress gzipHeader at hx
  simp only [List.mem_append, List.mem_cons, List.not_mem_nil, or_false, writeLE32] at hx
  rcases hx with ((h | h) | h) | h
  · rcases h with h | h | h | h | h | h | h | h | h | h <;> omega
  · exact deflate_bytes b.length b hb x h
  · rcases h with h | h | h | h <;> omega
  · rcases h with h | h | h | h <;> omega

/-- C1: full pipeline round trip.  For every byte sequence `b` (any
length, any content) the gzip adapter inverts itself,
`decompress (compress b) = ok b`; the base64 codec inverts itself on the
compressed bytes; and the composed restore path
`decompress (decode (encode (compress b)))` returns exactly `b`. -/
theorem pipeline_round_trip (b : List Nat) (hb : ∀ x ∈ b, x < 256) :
    decompress (compress b) = Except.ok b ∧
    base64ToUint8 (uint8ToBase64 (compress b)) = Except.ok (compress b) ∧
    restorePipeline (uint8ToBase64 (compress b)) = Except.ok b := by
  have h1 := decompress_compress b hb
  have h2 := base64ToUint8_uint8ToBase64 (compress b) (compress_bytes b hb)
  refine ⟨h1, h2, ?_⟩
  unfold restorePipeline
  rw [h2]
  show (match decompress (compress b) with
    | Except.error _ => Except.error RunError.restoreFailed
    | Except.ok bytes => Except.ok bytes) = Except.ok b
  rw [h1]

theorem pipeline_round_trip_witness :
    (∀ x ∈ ([72, 105] : List Nat), x < 256) ∧
    (decompress (compress [72, 105]) = Except.ok [72, 105] ∧
      base64ToUint8 (uint8ToBase64 (compress [72, 105])) = Except.ok (compress [72, 105]) ∧
      restorePipeline (uint8ToBase64 (compress [72, 105])) = Except.ok [72, 105]) :=
  ⟨by decide, pipeline_round_trip [72, 105] (by decide)⟩


/-- C5: corrupted stream rejection.  `decompress` answers
`InvalidCompressedStream` and never returns bytes on inputs that are not
well-formed gzip streams: any input not starting with the gzip magic
bytes (a different format, e.g. ten all-zero bytes), any one-byte
truncation of a valid `compress` output, and the spec's concrete example
`replicate 10 0`. -/
theorem decompress_rejects_invalid :
    (∀ s : List Nat, s.take 2 ≠ [31, 139] →
      decompress s = Except.error GzErr.invalidCompressedStream) ∧
    (∀ b : List Nat, decompress ((compress b).dropLast) =
      Except.error GzErr.invalidCompressedStream) ∧
    decompress (List.replicate 10 0) = Except.error GzErr.invalidCompressedStream := by
  refine ⟨?_, ?_, rfl⟩
  · intro s h
    unfold decompress
    split
    · exact absurd rfl h
    · rfl
  · intro b
    have hsplit : compress b = (gzipHeader ++ deflateStoredFuel b.length b ++
        writeLE32 (crc32 b) ++ [b.length % 256, b.length / 256 % 256, b.length / 65536 % 256])
        ++ [b.length / 16777216 % 256] := by
      unfold compress writeLE32
      simp [List.append_assoc]
    rw [hsplit, List.dropLast_concat]
    have hge := length_deflateStoredFuel_ge b.length b
    rw [List.append_assoc, List.append_assoc]
    show decompress (31 :: 139 :: 8 :: 0 :: 0 :: 0 :: 0 :: 0 :: 0 :: 255 ::
      (deflateStoredFuel b.length b ++ (writeLE32 (crc32 b) ++
        [b.length % 256, b.length / 256 % 256, b.length / 65536 % 256]))) = _
    simp only [decompress]
    rw [inflateStored_deflate b.length _ b _
      (by omega)
      (by rw [List.length_append]; omega)]
    rfl

theorem decompress_rejects_invalid_witness :
    decompress [0, 0, 0] = Except.error GzErr.invalidCompressedStream ∧
    decompress ((compress [5]).dropLast) = Except.error GzErr.invalidCompressedStream :=
  ⟨decompress_rejects_invalid.1 [0, 0, 0] (by decide),
    decompress_rejects_invalid.2.1 [5]⟩

/-! ## Malformed payloads and the component state machine -/

theorem atobForgiving_def (s : List Nat) :
    atobForgiving s =
      (if (if (s.filter (fun c => !isB64Ws c)).length % 4 = 0
            then stripPad (s.filter (fun c => !isB64Ws c))
            else s.filter (fun c => !isB64Ws c)).length % 4 = 1
        then Except.error B64Err.malformedPayload
        else
          match (if (s.filter (fun c => !isB64Ws c)).length % 4 = 0
              then stripPad (s.filter (fun c => !isB64Ws c))
              else s.filter (fun c => !isB64Ws c)).mapM b64index with
            | some vs => Except.ok (decode4 vs)
            | none => Except.error B64Err.malformedPayload) := rfl

theorem mem_dropLast_of_ne (t : List Nat) (x : Nat) (hx : x ∈ t) (hne : x ≠ 61)
    (h : t.getLast? = some 61) : x ∈ t.dropLast := by
  have ht : t ≠ [] := by
    intro e
    subst e
    simp at h
  have hg : t.getLast ht = 61 := by
    rw [List.getLast?_eq_getLast t ht] at h
    exact Option.some.inj h
  have hsplit := List.dropLast_append_getLast ht
  rcases List.mem_append.mp (by rw [hsplit]; exact hx) with hmem | hmem
  · exact hmem
  · rw [List.mem_singleton, hg] at hmem
    exact absurd hmem hne

theorem mem_stripPad (t : List Nat) (x : Nat) (hx : x ∈ t) (hne : x ≠ 61) :
    x ∈ stripPad t := by
  unfold stripPad
  split_ifs with h1 h2
  · exact mem_dropLast_of_ne _ x (mem_dropLast_of_ne t x hx hne h1) hne h2
  · exact mem_dropLast_of_ne t x hx hne h1
  · exact hx

theorem mapM_b64index_none (l : List Nat) (x : Nat) (hx : x ∈ l)
    (h : b64index x = none) : l.mapM b64index = none := by
  induction l with
  | nil => simp at hx
  | cons a t ih =>
    rcases List.mem_cons.mp hx with h' | hm
    · subst h'
      rw [List.mapM_cons, h]
      rfl
    · rw [List.mapM_cons, ih hm]
      cases b64index a <;> rfl

theorem atobForgiving_err_of_mem (s : List Nat) (c : Nat) (hc : c ∈ s)
    (hws : isB64Ws c = false) (hidx : b64index c = none) (hne : c ≠ 61) :
    atobForgiving s = Except.error B64Err.malformedPayload := by
  rw [atobForgiving_def]
  have hct : c ∈ s.filter (fun z => !isB64Ws z) :=
    List.mem_filter.mpr ⟨hc, by simp [hws]⟩
  set t := s.filter (fun z => !isB64Ws z) with ht
  set u := if t.length % 4 = 0 then stripPad t else t with hu
  have hcu : c ∈ u := by
    rw [hu]
    split_ifs
    · exact mem_stripPad t c hct hne
    · exact hct
  by_cases h1 : u.length % 4 = 1
  · rw [if_pos h1]
  · rw [if_neg h1, mapM_b64index_none u c hcu hidx]

theorem atobForgiving_err_len1 (s : List Nat)
    (h : (s.filter (fun c => !isB64Ws c)).length % 4 = 1) :
    atobForgiving s = Except.error B64Err.malformedPayload := by
  rw [atobForgiving_def]
  have he : (if (s.filter (fun c => !isB64Ws c)).length % 4 = 0
      then stripPad (s.filter (fun c => !isB64Ws c))
      else s.filter (fun c => !isB64Ws c)) = s.filter (fun c => !isB64Ws c) := by
    rw [if_neg (by omega)]
  rw [he, if_pos h]

theorem atobForgiving_err_misplaced_pad (s : List Nat)
    (h : 61 ∈ (if (s.filter (fun c => !isB64Ws c)).length % 4 = 0
        then stripPad (s.filter (fun c => !isB64Ws c))
        else s.filter (fun c => !isB64Ws c))) :
    atobForgiving s = Except.error B64Err.malformedPayload := by
  rw [atobForgiving_def]
  by_cases h1 : (if (s.filter (fun c => !isB64Ws c)).length % 4 = 0
      then stripPad (s.filter (fun c => !isB64Ws c))
      else s.filter (fun c => !isB64Ws c)).length % 4 = 1
  · rw [if_pos h1]
  · rw [if_neg h1, mapM_b64index_none _ 61 h (by decide)]

/-- C4 (amended): malformed payload rejection, for non-whitespace
characters.  Decoding fails with `MalformedPayload` whenever the input
contains a character outside the 64-symbol alphabet and the `=` padding
character that is not ASCII whitespace; whenever the length structure is
invalid (length 1 mod 4 after whitespace removal); and whenever a `=`
remains after the conditional stripping of the at-most-two trailing
padding characters — i.e. misplaced padding such as `"Q=QQ"` or `"QQ="`
is rejected.  ASCII whitespace itself is stripped by the forgiving
decoder, not rejected (see the counterexample `space_payload_decodes`). -/
theorem base64_malformed_rejected (s : List Nat) :
    ((∃ c ∈ s, isB64Ws c = false ∧ b64index c = none ∧ c ≠ 61) →
      base64ToUint8 s = Except.error B64Err.malformedPayload) ∧
    ((s.filter (fun c => !isB64Ws c)).length % 4 = 1 →
      base64ToUint8 s = Except.error B64Err.malformedPayload) ∧
    (61 ∈ (if (s.filter (fun c => !isB64Ws c)).length % 4 = 0
        then stripPad (s.filter (fun c => !isB64Ws c))
        else s.filter (fun c => !isB64Ws c)) →
      base64ToUint8 s = Except.error B64Err.malformedPayload) := by
  refine ⟨?_, ?_, ?_⟩
  · rintro ⟨c, hc, hws, hidx, hne⟩
    exact atobForgiving_err_of_mem s c hc hws hidx hne
  · intro h1
    exact atobForgiving_err_len1 s h1
  · intro h1
    exact atobForgiving_err_misplaced_pad s h1

/-- C4 counterexample: the claim as stated is false for a space.  The
string `"Q Q=="` contains a space (code 32), which is outside the
64-symbol alphabet and is not `=`, yet `base64ToUint8` succeeds and
returns a byte, because the platform `atob` strips ASCII whitespace
before decoding. -/
theorem space_payload_decodes :
    (32 ∈ ([81, 32, 81, 61, 61] : List Nat)) ∧ b64index 32 = none ∧
    isB64Ws 32 = true ∧
    base64ToUint8 [81, 32, 81, 61, 61] = Except.ok [65] :=
  ⟨by decide, by decide, by decide, rfl⟩

theorem base64_malformed_rejected_witness :
    base64ToUint8 [37] = Except.error B64Err.malformedPayload ∧
    base64ToUint8 [65] = Except.error B64Err.malformedPayload ∧
    base64ToUint8 [81, 61, 81, 81] = Except.error B64Err.malformedPayload :=
  ⟨(base64_malformed_rejected [37]).1 ⟨37, by decide, by decide, by decide, by decide⟩,
    (base64_malformed_rejected [65]).2.1 (by decide),
    (base64_malformed_rejected [81, 61, 81, 81]).2.2 (by decide)⟩

/-- C7: failure atomicity and cross-direction framing.  When the
compress direction fails at its stage, `compressedText` and
`restoredBlob` are unchanged; when the restore pipeline fails at any
stage, `compressedText` and `restoredBlob` are likewise unchanged — no
partial output is exposed and neither direction's previous result is
cleared. -/
theorem failure_preserves_results :
    (∀ (s : AppState) (f : RawFile) (e : RunError),
      (handleFileUploadCore s f (Except.error e)).compressedText = s.compressedText ∧
      (handleFileUploadCore s f (Except.error e)).restoredBlob = s.restoredBlob) ∧
    (∀ (s : AppState) (g : TxtFile) (e : RunError),
      restorePipeline g.text = Except.error e →
      (handleTxtUpload s (some g)).compressedText = s.compressedText ∧
      (handleTxtUpload s (some g)).restoredBlob = s.restoredBlob) := by
  constructor
  · intro s f e
    exact ⟨rfl, rfl⟩
  · intro s g e h
    simp only [handleTxtUpload]
    rw [h]
    exact ⟨rfl, rfl⟩

theorem failure_preserves_results_witness :
    restorePipeline ([37] : List Nat) = Except.error RunError.restoreFailed ∧
    ((handleTxtUpload ⟨[65], [], some [7], none, false, false⟩
        (some ⟨("payload.txt").data, [37]⟩)).compressedText =
      (⟨[65], [], some [7], none, false, false⟩ : AppState).compressedText ∧
      (handleTxtUpload ⟨[65], [], some [7], none, false, false⟩
        (some ⟨("payload.txt").data, [37]⟩)).restoredBlob =
      (⟨[65], [], some [7], none, false, false⟩ : AppState).restoredBlob) :=
  ⟨rfl, failure_preserves_results.2 ⟨[65], [], some [7], none, false, false⟩
    ⟨("payload.txt").data, [37]⟩ RunError.restoreFailed rfl⟩

/-- C10: every triggered run with a file present resets the error slot
to `none` in its synchronous prefix, in both directions, and a run that
later succeeds leaves the error slot `none` — a previously displayed
error never survives the start of a new run. -/
theorem run_start_clears_error (s : AppState) (f : RawFile) (g : TxtFile) :
    (compressStart s f).error = none ∧
    (restoreStart s).error = none ∧
    (handleFileUpload s (some f)).error = none ∧
    (∀ v, restorePipeline g.text = Except.ok v →
      (handleTxtUpload s (some g)).error = none) := by
  refine ⟨rfl, rfl, rfl, ?_⟩
  intro v h
  simp only [handleTxtUpload]
  rw [h]
  rfl

theorem run_start_clears_error_witness :
    (compressStart ⟨[], [], none, some RunError.compressFailed, false, false⟩
      ⟨("a.bin").data, [1, 2]⟩).error = none ∧
    (restoreStart ⟨[], [], none, some RunError.compressFailed, false, false⟩).error = none ∧
    (handleFileUpload ⟨[], [], none, some RunError.compressFailed, false, false⟩
      (some ⟨("a.bin").data, [1, 2]⟩)).error = none ∧
    (handleTxtUpload ⟨[], [], none, some RunError.compressFailed, false, false⟩
      (some ⟨("a.txt").data, uint8ToBase64 (compress [])⟩)).error = none := by
  have h := run_start_clears_error ⟨[], [], none, some RunError.compressFailed, false, false⟩
    ⟨("a.bin").data, [1, 2]⟩ ⟨("a.txt").data, uint8ToBase64 (compress [])⟩
  exact ⟨h.1, h.2.1, h.2.2.1, h.2.2.2 [] rfl⟩

/-- C6 counterexample: restoring in a fresh session from a file named
`report.pdf.compressed.txt` (with a valid payload) offers the download
name `restored_file`, not `report.pdf`: the restore direction reads the
`fileName` state slot, which only the compress direction ever sets, not
the uploaded `.txt` file's name. -/
theorem restore_name_ignores_upload_name :
    downloadRestoredName (handleTxtUpload initialState
      (some ⟨("report.pdf.compressed.txt").data, uint8ToBase64 (compress [])⟩)) =
      some (("restored_file").data) ∧
    ("restored_file").data ≠ ("report.pdf").data :=
  ⟨rfl, by decide⟩

/-- C6 (amended): filename derivation.  The compress direction offers
`f.name ++ ".compressed.txt"`.  The restore direction derives its name by
deleting the first occurrence of `".compressed.txt"` from the `fileName`
state slot — the name recorded by the last compress-direction upload, not
the uploaded `.txt` file's name — falling back to `restored_file` exactly
when that deletion leaves the empty string. -/
theorem filename_derivation_amended (s : AppState) (f : RawFile) (g : TxtFile)
    (v : List Nat) (h : restorePipeline g.text = Except.ok v) :
    downloadTxtName (handleFileUpload s (some f)) = f.name ++ compressedSuffix ∧
    downloadRestoredName (handleTxtUpload (handleFileUpload s (some f)) (some g)) =
      some (if replaceFirst f.name compressedSuffix = [] then restoredDefault
        else replaceFirst f.name compressedSuffix) := by
  constructor
  · rfl
  · simp only [handleTxtUpload]
    rw [h]
    rfl

theorem filename_derivation_amended_witness :
    restorePipeline (uint8ToBase64 (compress [])) = Except.ok [] ∧
    (downloadTxtName (handleFileUpload initialState (some ⟨("report.pdf").data, [1]⟩)) =
        ("report.pdf").data ++ compressedSuffix ∧
      downloadRestoredName (handleTxtUpload (handleFileUpload initialState
          (some ⟨("report.pdf").data, [1]⟩))
          (some ⟨("report.pdf.compressed.txt").data, uint8ToBase64 (compress [])⟩)) =
        some (if replaceFirst ("report.pdf").data compressedSuffix = [] then restoredDefault
          else replaceFirst ("report.pdf").data compressedSuffix)) :=
  ⟨rfl, filename_derivation_amended initialState ⟨("report.pdf").data, [1]⟩
    ⟨("report.pdf.compressed.txt").data, uint8ToBase64 (compress [])⟩ [] rfl⟩

end DataCompress
